import Mathlib

/-!
Shallow embedding of the Gray-Scott reaction-diffusion simulator
(src/categories/turing.rs) and of the xorshift64 pseudo-random generator
(src/categories/fractals.rs) of the mathatura repository, together with
proofs of the specification's claims about them.

Modelling conventions:
in the statements are derived directly from the Rust source.
Machine floating point (f64) is modelled by exact rational arithmetic (ℚ);
u64 is modelled by Nat, reduced modulo 2 ^ 64 exactly where Rust wrapping
semantics applies (wrapping left shift); usize indices are Nat, isize
coordinates are Int, with Rust's truncating remainder modelled by Int.tmod.
Vec indexing is modelled by List.getD with a default cell; under the
length invariant cells.length = width * height every access proved about
is in bounds, so the default is never consulted.
-/

namespace Mathatura

/-- Grid cell containing two chemical concentrations
(a activator, b inhibitor), from struct Cell in turing.rs. -/
structure Cell where
  a : ℚ
  b : ℚ
deriving DecidableEq

/-- Default cell used only to totalise list indexing; never reached
for in-bounds accesses. -/
def defaultCell : Cell := { a := 0, b := 0 }

/-- Parameters of the Gray-Scott model, from struct GrayScottParams. -/
structure GrayScottParams where
  da : ℚ
  db : ℚ
  feed : ℚ
  kill : ℚ
  dt : ℚ
deriving DecidableEq

/-- Named presets, from enum Preset in turing.rs. -/
inductive Preset where
  | spots
  | stripes
  | coral
  | mitosis
  | worms
deriving DecidableEq

/-- Preset parameter table, from Preset::params. -/
def Preset.params : Preset → GrayScottParams
  | .spots => { da := 1, db := 0.5, feed := 0.035, kill := 0.065, dt := 1 }
  | .stripes => { da := 1, db := 0.5, feed := 0.04, kill := 0.06, dt := 1 }
  | .coral => { da := 1, db := 0.5, feed := 0.06, kill := 0.062, dt := 1 }
  | .mitosis => { da := 1, db := 0.5, feed := 0.028, kill := 0.062, dt := 1 }
  | .worms => { da := 1, db := 0.5, feed := 0.058, kill := 0.065, dt := 1 }

/-- Display names, from Preset::name. -/
def Preset.displayName : Preset → String
  | .spots => "Leopard Spots"
  | .stripes => "Zebra Stripes"
  | .coral => "Brain Coral"
  | .mitosis => "Cell Division"
  | .worms => "Worm Solitons"

/-- Rust f64::clamp(lo, hi): if below lo give lo, if above hi give hi,
else the value itself (total on rationals; no NaN in the model). -/
def clamp (x lo hi : ℚ) : ℚ := if x < lo then lo else if hi < x then hi else x

/-- The xorshift64 state transition of SimpleRng::next_u64 in fractals.rs:
three xor-shift operations (left 13, right 7, left 17), the left shifts
wrapping modulo 2 ^ 64 as u64 shifts do. -/
def xorshift64 (s : Nat) : Nat :=
  let s1 := s ^^^ ((s <<< 13) % 2 ^ 64)
  let s2 := s1 ^^^ (s1 >>> 7)
  s2 ^^^ ((s2 <<< 17) % 2 ^ 64)

/-- Simple deterministic RNG (xorshift64), from struct SimpleRng. -/
structure SimpleRng where
  state : Nat
deriving DecidableEq

/-- SimpleRng::new: a zero seed is replaced by 1. -/
def SimpleRng.new (seed : Nat) : SimpleRng := { state := max seed 1 }

/-- SimpleRng::next_u64: advance the state by xorshift64 and return it
(value, next generator). -/
def SimpleRng.next_u64 (r : SimpleRng) : Nat × SimpleRng :=
  let s := xorshift64 r.state
  (s, { state := s })

/-- SimpleRng::next_f64: the raw next_u64 value divided by u64::MAX.
The source divides in f64 after rounding both operands; here the quotient
is taken in exact rationals.  The two computations agree on the facts
proved below — the result is nonnegative, at most 1, and exactly 1 when
the raw value is u64::MAX — but not everywhere: f64 rounding also sends
raw values just below u64::MAX to exactly 1.0, which the exact quotient
does not, so no exactly-when characterisation of the value 1 is stated. -/
def SimpleRng.next_f64 (r : SimpleRng) : ℚ × SimpleRng :=
  let v := r.next_u64
  ((v.1 : ℚ) / ((2 ^ 64 - 1 : Nat) : ℚ), v.2)

/-- SimpleRng::next_usize: next_u64 reduced modulo the bound. -/
def SimpleRng.next_usize (r : SimpleRng) (bound : Nat) : Nat × SimpleRng :=
  let v := r.next_u64
  (v.1 % bound, v.2)

/-- A 2D grid for reaction-diffusion simulation, from struct Grid. -/
structure Grid where
  width : Nat
  height : Nat
  cells : List Cell
deriving DecidableEq

/-- Grid::new: all cells at steady state (a = 1, b = 0), then a centered
square of side min(width, height) / 10 overwritten with (a = 0, b = 1),
each write guarded by the in-bounds test of the source. -/
def Grid.new (width height : Nat) : Grid :=
  let cells0 : List Cell := List.replicate (width * height) { a := 1, b := 0 }
  let cx := width / 2
  let cy := height / 2
  let seedSize := min width height / 10
  let cells := (List.range seedSize).foldl (fun acc dy =>
    (List.range seedSize).foldl (fun acc2 dx =>
      let x := cx - seedSize / 2 + dx
      let y := cy - seedSize / 2 + dy
      if x < width ∧ y < height then acc2.set (y * width + x) { a := 0, b := 1 }
      else acc2) acc) cells0
  { width := width, height := height, cells := cells }

/-- Grid::new_random: Grid::new, then five square ink blots at
pseudo-random positions with side 3 + next_usize(8), clamped (not
wrapped) at the right and bottom edges. -/
def Grid.new_random (width height seed : Nat) : Grid :=
  let g0 := Grid.new width height
  let blots := (List.range 5).foldl (fun (p : Grid × SimpleRng) _ =>
    let g := p.1
    let cx := p.2.next_usize width
    let cy := cx.2.next_usize height
    let sz := cy.2.next_usize 8
    let size := 3 + sz.1
    let cells := (List.range size).foldl (fun acc dy =>
      (List.range size).foldl (fun acc2 dx =>
        let x := min (cx.1 + dx) (width - 1)
        let y := min (cy.1 + dy) (height - 1)
        acc2.set (y * width + x) { a := 0, b := 1 }) acc) g.cells
    ({ g with cells := cells }, sz.2)) (g0, SimpleRng.new seed)
  blots.1

/-- Grid::get with toroidal wrap: Rust computes
((coord % size) + size) as usize % size on each axis, with % the
truncating isize remainder (Int.tmod). -/
def Grid.get (g : Grid) (x y : Int) : Cell :=
  let wx := (x.tmod g.width + g.width).toNat % g.width
  let wy := (y.tmod g.height + g.height).toNat % g.height
  g.cells.getD (wy * g.width + wx) defaultCell

/-- Grid::laplacian: 5-point stencil of both chemicals at (x, y). -/
def Grid.laplacian (g : Grid) (x y : Nat) : ℚ × ℚ :=
  let xi : Int := x
  let yi : Int := y
  let center := g.get xi yi
  let n1 := g.get (xi - 1) yi
  let n2 := g.get (xi + 1) yi
  let n3 := g.get xi (yi - 1)
  let n4 := g.get xi (yi + 1)
  (n1.a + n2.a + n3.a + n4.a - 4 * center.a,
   n1.b + n2.b + n3.b + n4.b - 4 * center.b)

/-- The body of the update loop of Grid::step for one cell: the Gray-Scott
reaction applied to the cell at (x, y) of the prior field, both results
clamped into the unit interval. -/
def Grid.stepCell (g : Grid) (p : GrayScottParams) (x y : Nat) : Cell :=
  let cell := g.cells.getD (y * g.width + x) defaultCell
  let lap := g.laplacian x y
  let ab2 := cell.a * cell.b * cell.b
  let newA := cell.a + p.dt * (p.da * lap.1 - ab2 + p.feed * (1 - cell.a))
  let newB := cell.b + p.dt * (p.db * lap.2 + ab2 - (p.kill + p.feed) * cell.b)
  { a := clamp newA 0 1, b := clamp newB 0 1 }

/-- Grid::step: clone the cells, write the updated value of every cell
into the clone while reading only the prior field, then replace the
field by the clone. -/
def Grid.step (g : Grid) (p : GrayScottParams) : Grid :=
  let newCells := (List.range g.height).foldl (fun acc y =>
    (List.range g.width).foldl (fun acc2 x =>
      acc2.set (y * g.width + x) (g.stepCell p x y)) acc) g.cells
  { g with cells := newCells }

/-- Grid::simulate: n sequential steps. -/
def Grid.simulate (g : Grid) (p : GrayScottParams) (steps : Nat) : Grid :=
  (List.range steps).foldl (fun acc _ => acc.step p) g

/-- Modelled from the spec (reference semantics for the refinement claim):
the simultaneous update, in which every cell of the new field is computed
independently from the prior field, the cell at row-major index i being
the Gray-Scott update of the cell at coordinates (i % width, i / width). -/
def Grid.stepSimultaneousSpec (g : Grid) (p : GrayScottParams) : Grid :=
  { g with cells := (List.range (g.width * g.height)).map fun i =>
      g.stepCell p (i % g.width) (i / g.width) }

/-! Generic lemmas about left folds of list writes.  The imperative loops
of Grid::new and Grid::step are folds whose step sets one list entry;
the lemmas below characterise membership, length and the value read back
at an index after such a fold. -/

/-- A left fold whose step only keeps elements of the accumulator or
introduces elements satisfying P yields elements of the initial list or
elements satisfying P. -/
theorem foldl_mem_imp {α β : Type} {F : List α → β → List α} {P : α → Prop}
    (xs : List β) (l : List α)
    (hF : ∀ acc b, b ∈ xs → ∀ c ∈ F acc b, c ∈ acc ∨ P c) :
    ∀ c ∈ xs.foldl F l, c ∈ l ∨ P c := by
  induction xs generalizing l with
  | nil => intro c hc; exact Or.inl hc
  | cons x xs ih =>
    intro c hc
    simp only [List.foldl_cons] at hc
    have h2 := ih (F l x) (fun acc b hb => hF acc b (List.mem_cons_of_mem _ hb)) c hc
    rcases h2 with h2 | h2
    · exact hF l x (List.mem_cons_self _ _) c h2
    · exact Or.inr h2

/-- A left fold whose step preserves length preserves length. -/
theorem foldl_length_imp {α β : Type} {F : List α → β → List α}
    (xs : List β) (l : List α)
    (hF : ∀ acc b, b ∈ xs → (F acc b).length = acc.length) :
    (xs.foldl F l).length = l.length := by
  induction xs generalizing l with
  | nil => rfl
  | cons x xs ih =>
    simp only [List.foldl_cons]
    rw [ih (F l x) (fun acc b hb => hF acc b (List.mem_cons_of_mem _ hb)),
      hF l x (List.mem_cons_self _ _)]

/-- A fold of writes none of which touches index j leaves the value read
at j unchanged. -/
theorem foldl_set_getD_of_ne {β : Type} {α : Type} (xs : List β) (l : List α)
    (I : β → Nat) (V : β → α) (j : Nat) (d : α) (h : ∀ b ∈ xs, I b ≠ j) :
    (xs.foldl (fun acc b => acc.set (I b) (V b)) l).getD j d = l.getD j d := by
  induction xs generalizing l with
  | nil => rfl
  | cons x xs ih =>
    simp only [List.foldl_cons]
    rw [ih (l.set (I x) (V x)) (fun b hb => h b (List.mem_cons_of_mem _ hb)),
      List.getD_eq_getElem?_getD, List.getElem?_set,
      if_neg (h x (List.mem_cons_self _ _)), ← List.getD_eq_getElem?_getD]

/-- Writing values f 0, f 1, ..., f (s-1) at consecutive indices
base, base+1, ..., base+s-1: the value read back at an index written at
offset dx is f dx (later writes of the row land on distinct indices). -/
theorem rowSet_getD_at {α : Type} (f : Nat → α) (base s : Nat) (l : List α)
    (dx : Nat) (d : α) (hdx : dx < s) (hlen : base + dx < l.length) :
    ((List.range s).foldl (fun acc dx' => acc.set (base + dx') (f dx')) l).getD
      (base + dx) d = f dx := by
  induction s with
  | zero => omega
  | succ s ih =>
    rw [List.range_succ, List.foldl_append, List.foldl_cons, List.foldl_nil]
    have hL : ((List.range s).foldl (fun acc dx' => acc.set (base + dx') (f dx')) l).length
        = l.length :=
      foldl_length_imp _ _ (fun acc b _ => List.length_set acc _ _)
    by_cases hxs : dx = s
    · subst hxs
      rw [List.getD_eq_getElem?_getD, List.getElem?_set, if_pos rfl, hL,
        if_pos hlen, Option.getD_some]
    · rw [List.getD_eq_getElem?_getD, List.getElem?_set, if_neg (by omega),
        ← List.getD_eq_getElem?_getD, ih (by omega)]

/-- A rectangular block of writes at offset (x0, y0) of size s × t into a
row-major list with row length w: cell (dx, dy) of the block receives
v dx dy. -/
def blockSet {α : Type} (l : List α) (w x0 y0 s t : Nat) (v : Nat → Nat → α) : List α :=
  (List.range t).foldl (fun acc dy =>
    (List.range s).foldl (fun acc2 dx =>
      acc2.set ((y0 + dy) * w + (x0 + dx)) (v dx dy)) acc) l

theorem blockSet_length {α : Type} (l : List α) (w x0 y0 s t : Nat) (v : Nat → Nat → α) :
    (blockSet l w x0 y0 s t v).length = l.length :=
  foldl_length_imp _ _ (fun acc b _ =>
    foldl_length_imp _ _ (fun acc2 b2 _ => List.length_set acc2 _ _))

theorem blockSet_mem {α : Type} (l : List α) (w x0 y0 s t : Nat) (v : Nat → Nat → α) :
    ∀ c ∈ blockSet l w x0 y0 s t v, c ∈ l ∨ ∃ dx dy, c = v dx dy := by
  refine foldl_mem_imp (P := fun c => ∃ dx dy, c = v dx dy) _ _
    (fun acc dy _ c hc => ?_)
  refine foldl_mem_imp (P := fun c => ∃ dx dy, c = v dx dy) _ _
    (fun acc2 dx _ c2 hc2 => ?_) c hc
  rcases List.mem_or_eq_of_mem_set hc2 with h | h
  · exact Or.inl h
  · exact Or.inr ⟨dx, dy, h⟩

/-- Reading back an index outside the block is reading the initial list. -/
theorem blockSet_getD_of_ne {α : Type} (l : List α) (w x0 y0 s t : Nat)
    (v : Nat → Nat → α) (j : Nat) (d : α)
    (h : ∀ dx, dx < s → ∀ dy, dy < t → (y0 + dy) * w + (x0 + dx) ≠ j) :
    (blockSet l w x0 y0 s t v).getD j d = l.getD j d := by
  induction t with
  | zero => rfl
  | succ t ih =>
    rw [blockSet, List.range_succ, List.foldl_append, List.foldl_cons, List.foldl_nil]
    rw [foldl_set_getD_of_ne (List.range s) _ (fun dx => (y0 + t) * w + (x0 + dx))
      (fun dx => v dx t) j d
      (fun dx hdx => h dx (List.mem_range.mp hdx) t (Nat.lt_succ_self t))]
    exact ih (fun dx hdx dy hdy => h dx hdx dy (Nat.lt_succ_of_lt hdy))

/-- Reading back an index inside the block gives the written value,
provided the block fits in the row (x0 + s ≤ w) and the index is in
bounds. -/
theorem blockSet_getD_at {α : Type} (l : List α) (w x0 y0 s t : Nat)
    (v : Nat → Nat → α) (dx dy : Nat) (d : α)
    (hdx : dx < s) (hdy : dy < t) (hxs : x0 + s ≤ w)
    (hlen : (y0 + dy) * w + (x0 + dx) < l.length) :
    (blockSet l w x0 y0 s t v).getD ((y0 + dy) * w + (x0 + dx)) d = v dx dy := by
  revert hdy
  induction t with
  | zero => exact fun hdy => absurd hdy (Nat.not_lt_zero dy)
  | succ t ih =>
    intro hdy
    rw [blockSet, List.range_succ, List.foldl_append, List.foldl_cons, List.foldl_nil]
    have hL : (blockSet l w x0 y0 s t v).length = l.length := blockSet_length ..
    by_cases hdyt : dy = t
    · subst hdyt
      have hbody : ∀ (acc : List α), ∀ dx' ∈ List.range s,
          acc.set ((y0 + dy) * w + (x0 + dx')) (v dx' dy)
            = acc.set (((y0 + dy) * w + x0) + dx') ((fun i => v i dy) dx') := by
        intro acc dx' _
        have h3 : (y0 + dy) * w + (x0 + dx') = ((y0 + dy) * w + x0) + dx' := by omega
        rw [h3]
      rw [List.foldl_ext _ _ _ hbody]
      have htarget : (y0 + dy) * w + (x0 + dx) = ((y0 + dy) * w + x0) + dx := by omega
      rw [htarget]
      exact rowSet_getD_at (fun i => v i dy) ((y0 + dy) * w + x0) s
        (blockSet l w x0 y0 s dy v) dx d hdx (by rw [hL]; omega)
    · have hdy' : dy < t := by omega
      have hne : ∀ dx' ∈ List.range s,
          (fun i => (y0 + t) * w + (x0 + i)) dx' ≠ (y0 + dy) * w + (x0 + dx) := by
        intro dx' hdx'
        have hdx'' : dx' < s := List.mem_range.mp hdx'
        have hxd : x0 + dx < w := by omega
        have h1 : (y0 + dy) * w + (x0 + dx) < (y0 + dy + 1) * w := by
          calc (y0 + dy) * w + (x0 + dx) < (y0 + dy) * w + w :=
              Nat.add_lt_add_left hxd _
            _ = (y0 + dy + 1) * w := by ring
        have h2 : (y0 + dy + 1) * w ≤ (y0 + t) * w :=
          Nat.mul_le_mul_right w (by omega)
        have h3 : (y0 + dy) * w + (x0 + dx) < (y0 + t) * w + (x0 + dx') :=
          lt_of_lt_of_le (lt_of_lt_of_le h1 h2) (Nat.le_add_right _ _)
        exact Nat.ne_of_gt h3
      rw [foldl_set_getD_of_ne (List.range s) _ (fun i => (y0 + t) * w + (x0 + i))
        (fun i => v i t) _ d hne]
      exact ih hdy'

/-! Bridges: the loops of Grid::new and Grid::step are block writes. -/

/-- Side length of the centered seed square of Grid::new. -/
def seedSize (w h : Nat) : Nat := min w h / 10

/-- Left column of the centered seed square. -/
def seedX0 (w h : Nat) : Nat := w / 2 - seedSize w h / 2

/-- Top row of the centered seed square. -/
def seedY0 (w h : Nat) : Nat := h / 2 - seedSize w h / 2

/-- Row-major index j lies in the centered seed square of Grid::new. -/
def inSeedBlock (w h j : Nat) : Prop :=
  ∃ dx < seedSize w h, ∃ dy < seedSize w h,
    j = (seedY0 w h + dy) * w + (seedX0 w h + dx)

instance (w h j : Nat) : Decidable (inSeedBlock w h j) := by
  unfold inSeedBlock
  infer_instance

/-- The seed square fits inside the grid. -/
theorem seed_bounds (w h : Nat) :
    seedX0 w h + seedSize w h ≤ w ∧ seedY0 w h + seedSize w h ≤ h := by
  unfold seedX0 seedY0 seedSize
  rcases Nat.le_total w h with hwh | hwh
  · rw [Nat.min_eq_left hwh]
    constructor <;> omega
  · rw [Nat.min_eq_right hwh]
    constructor <;> omega

/-- A row-major index built from in-range coordinates is in range. -/
theorem index_lt {x y w h : Nat} (hx : x < w) (hy : y < h) :
    y * w + x < w * h := by
  calc y * w + x < y * w + w := Nat.add_lt_add_left hx _
    _ = (y + 1) * w := by ring
    _ ≤ h * w := Nat.mul_le_mul_right w hy
    _ = w * h := Nat.mul_comm h w

/-- The cell list built by Grid::new is the all-steady list with the seed
square written over it. -/
theorem Grid.new_cells_eq (width height : Nat) :
    (Grid.new width height).cells =
      blockSet (List.replicate (width * height) { a := 1, b := 0 }) width
        (seedX0 width height) (seedY0 width height)
        (seedSize width height) (seedSize width height)
        (fun _ _ => { a := 0, b := 1 }) := by
  have hb := seed_bounds width height
  unfold seedX0 seedY0 seedSize at hb
  simp only [Grid.new, blockSet]
  apply List.foldl_ext
  intro acc dy hdy
  apply List.foldl_ext
  intro acc2 dx hdx
  have hdy' : dy < min width height / 10 := List.mem_range.mp hdy
  have hdx' : dx < min width height / 10 := List.mem_range.mp hdx
  have hcond : width / 2 - min width height / 10 / 2 + dx < width ∧
      height / 2 - min width height / 10 / 2 + dy < height := by omega
  rw [if_pos hcond]
  simp only [seedX0, seedY0, seedSize]

/-- The cell list built by Grid::step is a full-grid block write of the
per-cell update over the prior cells. -/
theorem Grid.step_cells_eq (g : Grid) (p : GrayScottParams) :
    (g.step p).cells =
      blockSet g.cells g.width 0 0 g.width g.height (fun x y => g.stepCell p x y) := by
  simp only [Grid.step, blockSet]
  apply List.foldl_ext
  intro acc y hy
  apply List.foldl_ext
  intro acc2 x hx
  simp only [Nat.zero_add]

theorem Grid.new_length (w h : Nat) : (Grid.new w h).cells.length = w * h := by
  rw [Grid.new_cells_eq, blockSet_length, List.length_replicate]

theorem Grid.step_length (g : Grid) (p : GrayScottParams) :
    (g.step p).cells.length = g.cells.length := by
  rw [Grid.step_cells_eq, blockSet_length]

theorem Grid.step_width (g : Grid) (p : GrayScottParams) : (g.step p).width = g.width := rfl

theorem Grid.step_height (g : Grid) (p : GrayScottParams) : (g.step p).height = g.height := rfl

theorem Grid.simulate_zero (g : Grid) (p : GrayScottParams) : g.simulate p 0 = g := rfl

theorem Grid.simulate_succ (g : Grid) (p : GrayScottParams) (n : Nat) :
    g.simulate p (n + 1) = (g.simulate p n).step p := by
  simp only [Grid.simulate, List.range_succ, List.foldl_append, List.foldl_cons,
    List.foldl_nil]

/-- The value Grid::step writes at in-range coordinates (x, y). -/
theorem Grid.step_getD (g : Grid) (p : GrayScottParams) (x y : Nat) (d : Cell)
    (hx : x < g.width) (hy : y < g.height)
    (hlen : g.width * g.height ≤ g.cells.length) :
    (g.step p).cells.getD (y * g.width + x) d = g.stepCell p x y := by
  rw [Grid.step_cells_eq]
  have h0 : (0 + y) * g.width + (0 + x) = y * g.width + x := by simp
  rw [← h0]
  exact blockSet_getD_at g.cells g.width 0 0 g.width g.height _ x y d hx hy
    (by omega) (by rw [h0]; exact lt_of_lt_of_le (index_lt hx hy) hlen)

/-- Values read back from the cells of Grid::new at an in-range index:
the seeded value inside the seed square, the steady value outside it. -/
theorem Grid.new_getD (w h j : Nat) (hj : j < w * h) :
    (Grid.new w h).cells.getD j defaultCell =
      if inSeedBlock w h j then { a := 0, b := 1 } else { a := 1, b := 0 } := by
  have hb := seed_bounds w h
  rw [Grid.new_cells_eq]
  by_cases hs : inSeedBlock w h j
  · obtain ⟨dx, hdx, dy, hdy, rfl⟩ := hs
    rw [if_pos ⟨dx, hdx, dy, hdy, rfl⟩]
    exact blockSet_getD_at _ w _ _ _ _ _ dx dy _ hdx hdy hb.1
      (by rw [List.length_replicate]; exact hj)
  · rw [if_neg hs, blockSet_getD_of_ne _ w _ _ _ _ _ j _
      (fun dx hdx dy hdy hEq => hs ⟨dx, hdx, dy, hdy, hEq.symm⟩),
      List.getD_eq_getElem _ _ (by rw [List.length_replicate]; exact hj),
      List.getElem_replicate]

/-- Every cell of Grid::new is the steady cell or the seeded cell. -/
theorem Grid.new_mem (w h : Nat) :
    ∀ c ∈ (Grid.new w h).cells,
      c = { a := 1, b := 0 } ∨ c = { a := 0, b := 1 } := by
  intro c hc
  rw [Grid.new_cells_eq] at hc
  rcases blockSet_mem _ _ _ _ _ _ _ c hc with h1 | h1
  · exact Or.inl (List.mem_replicate.mp h1).2
  · obtain ⟨dx, dy, rfl⟩ := h1
    exact Or.inr rfl

/-! Toroidal wrap arithmetic: the Rust expression
((coord % size) + size) as usize % size equals the canonical
nonnegative residue (Int.emod). -/

theorem neg_tmod_eq (a b : ℤ) : (-a).tmod b = -(a.tmod b) := by
  rw [Int.tmod_def, Int.tmod_def, Int.neg_tdiv, Int.mul_neg]
  ring

theorem tmod_lower (x w : ℤ) (hw : 0 < w) : -w < x.tmod w := by
  rcases le_or_lt 0 x with hx | hx
  · have h1 : 0 ≤ x.tmod w := Int.tmod_nonneg w hx
    linarith
  · have h1 : (-x).tmod w < w := Int.tmod_lt_of_pos (-x) hw
    rw [neg_tmod_eq] at h1
    linarith

theorem tmod_emod (x w : ℤ) : x.tmod w % w = x % w := by
  conv_rhs => rw [← Int.tmod_add_tdiv x w]
  rw [Int.add_mul_emod_self_left]

theorem wrap_toNat_eq (x : ℤ) (w : ℕ) (hw : 0 < w) :
    (x.tmod (w : ℤ) + (w : ℤ)).toNat % w = (x % (w : ℤ)).toNat := by
  have hw' : (0 : ℤ) < (w : ℤ) := by exact_mod_cast hw
  have hlow : -(w : ℤ) < x.tmod w := tmod_lower x w hw'
  have hnn : (0 : ℤ) ≤ x.tmod (w : ℤ) + w := by linarith
  refine (Nat.cast_inj (R := ℤ)).mp ?_
  rw [Int.natCast_mod, Int.toNat_of_nonneg hnn,
    Int.toNat_of_nonneg (Int.emod_nonneg x (ne_of_gt hw'))]
  calc (x.tmod (w : ℤ) + w) % w = (x.tmod (w : ℤ) + w * 1) % w := by ring_nf
    _ = x.tmod (w : ℤ) % w := Int.add_mul_emod_self_left _ _ _
    _ = x % w := tmod_emod x w

/-- Grid::get resolves to the canonical nonnegative residues. -/
theorem Grid.get_eq (g : Grid) (x y : ℤ) (hw : 0 < g.width) (hh : 0 < g.height) :
    g.get x y = g.cells.getD
      ((y % (g.height : ℤ)).toNat * g.width + (x % (g.width : ℤ)).toNat)
      defaultCell := by
  simp only [Grid.get]
  rw [wrap_toNat_eq x g.width hw, wrap_toNat_eq y g.height hh]

/-- Grid::get at in-range nonnegative coordinates reads the cell list
directly. -/
theorem Grid.get_ofNat (g : Grid) (x y : Nat) (hx : x < g.width) (hy : y < g.height) :
    g.get x y = g.cells.getD (y * g.width + x) defaultCell := by
  rw [Grid.get_eq g x y (by omega) (by omega)]
  have h1 : ((x : ℤ) % (g.width : ℤ)) = (x : ℤ) :=
    Int.emod_eq_of_lt (by exact_mod_cast Nat.zero_le x) (by exact_mod_cast hx)
  have h2 : ((y : ℤ) % (g.height : ℤ)) = (y : ℤ) :=
    Int.emod_eq_of_lt (by exact_mod_cast Nat.zero_le y) (by exact_mod_cast hy)
  rw [h1, h2, Int.toNat_natCast, Int.toNat_natCast]

/-! Clamping. -/

theorem clamp_nonneg (x : ℚ) : 0 ≤ clamp x 0 1 := by
  unfold clamp
  split_ifs <;> linarith

theorem clamp_le_one (x : ℚ) : clamp x 0 1 ≤ 1 := by
  unfold clamp
  split_ifs <;> linarith

theorem clamp_le_of_le {x c : ℚ} (hc0 : 0 ≤ c) (hc1 : c ≤ 1) (h : x ≤ 1 - c) :
    clamp x 0 1 ≤ 1 - c := by
  unfold clamp
  split_ifs <;> linarith

/-! The uniform steady field is a fixed point of the update. -/

/-- Cells of Grid::new read back at any index: steady, seeded, or (out of
bounds) the default. -/
theorem Grid.new_getD_cases (w h j : Nat) :
    (Grid.new w h).cells.getD j defaultCell = { a := 1, b := 0 } ∨
    (Grid.new w h).cells.getD j defaultCell = { a := 0, b := 1 } ∨
    (Grid.new w h).cells.getD j defaultCell = defaultCell := by
  by_cases hj : j < (Grid.new w h).cells.length
  · rw [List.getD_eq_getElem _ _ hj]
    have h1 := Grid.new_mem w h _ (List.getElem_mem hj)
    tauto
  · rw [List.getD_eq_default _ _ (by omega)]
    tauto

theorem Grid.new_width (w h : Nat) : (Grid.new w h).width = w := rfl

theorem Grid.new_height (w h : Nat) : (Grid.new w h).height = h := rfl

/-- Both concentrations of any toroidal read of Grid::new lie in [0, 1]. -/
theorem Grid.new_get_bounds (w h : Nat) (x y : ℤ) :
    0 ≤ ((Grid.new w h).get x y).a ∧ ((Grid.new w h).get x y).a ≤ 1 ∧
    0 ≤ ((Grid.new w h).get x y).b ∧ ((Grid.new w h).get x y).b ≤ 1 := by
  simp only [Grid.get, Grid.new_width, Grid.new_height]
  rcases Grid.new_getD_cases w h
      (((y.tmod (h : ℤ) + (h : ℤ)).toNat % h) * w +
        ((x.tmod (w : ℤ) + (w : ℤ)).toNat % w)) with h1 | h1 | h1 <;>
    rw [h1] <;> norm_num [defaultCell]

/-- On a grid whose cells are all exactly the steady cell (a = 1, b = 0),
the per-cell Gray-Scott update returns the steady cell unchanged: the
Laplacians and the reaction term are exactly zero. -/
theorem Grid.stepCell_uniform (g : Grid) (p : GrayScottParams) (x y : Nat)
    (hw : 0 < g.width) (hh : 0 < g.height)
    (hc : g.cells = List.replicate (g.width * g.height) { a := 1, b := 0 })
    (hx : x < g.width) (hy : y < g.height) :
    g.stepCell p x y = { a := 1, b := 0 } := by
  have hget : ∀ (u v : ℤ), g.get u v = { a := 1, b := 0 } := by
    intro u v
    simp only [Grid.get]
    rw [hc]
    have h1 : (u.tmod (g.width : ℤ) + (g.width : ℤ)).toNat % g.width < g.width :=
      Nat.mod_lt _ hw
    have h2 : (v.tmod (g.height : ℤ) + (g.height : ℤ)).toNat % g.height < g.height :=
      Nat.mod_lt _ hh
    rw [List.getD_eq_getElem _ _
      (by rw [List.length_replicate]; exact index_lt h1 h2), List.getElem_replicate]
  have hcell : g.cells.getD (y * g.width + x) defaultCell = { a := 1, b := 0 } := by
    rw [hc, List.getD_eq_getElem _ _
      (by rw [List.length_replicate]; exact index_lt hx hy), List.getElem_replicate]
  simp only [Grid.stepCell, Grid.laplacian, hget, hcell]
  unfold clamp
  norm_num

/-- The uniform steady grid is a fixed point of Grid::step. -/
theorem Grid.step_uniform (g : Grid) (p : GrayScottParams)
    (hw : 0 < g.width) (hh : 0 < g.height)
    (hc : g.cells = List.replicate (g.width * g.height) { a := 1, b := 0 }) :
    g.step p = g := by
  have hlen : g.cells.length = g.width * g.height := by
    rw [hc, List.length_replicate]
  have hcells : (g.step p).cells = g.cells := by
    apply List.ext_getElem (by rw [Grid.step_length])
    intro n h1 h2
    have hn : n < g.width * g.height := by
      rw [Grid.step_length, hlen] at h1
      exact h1
    have hx : n % g.width < g.width := Nat.mod_lt _ hw
    have hy : n / g.width < g.height := by
      rw [Nat.div_lt_iff_lt_mul hw]
      rw [Nat.mul_comm g.width g.height] at hn
      exact hn
    have hdec : (n / g.width) * g.width + n % g.width = n := by
      rw [Nat.mul_comm]
      exact Nat.div_add_mod n g.width
    have hstep : (g.step p).cells.getD n defaultCell
        = g.stepCell p (n % g.width) (n / g.width) := by
      conv_lhs => rw [← hdec]
      exact Grid.step_getD g p (n % g.width) (n / g.width) defaultCell hx hy
        (le_of_eq hlen.symm)
    have hval : g.stepCell p (n % g.width) (n / g.width) = { a := 1, b := 0 } :=
      Grid.stepCell_uniform g p _ _ hw hh hc hx hy
    have hr : g.cells.getD n defaultCell = { a := 1, b := 0 } := by
      rw [hc, List.getD_eq_getElem _ _ (by rw [List.length_replicate]; exact hn),
        List.getElem_replicate]
    calc (g.step p).cells[n] = (g.step p).cells.getD n defaultCell :=
        (List.getD_eq_getElem _ _ h1).symm
      _ = { a := 1, b := 0 } := by rw [hstep, hval]
      _ = g.cells.getD n defaultCell := hr.symm
      _ = g.cells[n] := List.getD_eq_getElem _ _ h2
  calc g.step p = { g with cells := (g.step p).cells } := rfl
    _ = { g with cells := g.cells } := by rw [hcells]
    _ = g := rfl

/-! The xorshift64 generator: range bound and the nonzero-state
invariant. -/

theorem nat_eq_of_xor_eq_zero {a b : Nat} (h : a ^^^ b = 0) : a = b := by
  calc a = a ^^^ b ^^^ b := by rw [Nat.xor_assoc, Nat.xor_self, Nat.xor_zero]
    _ = 0 ^^^ b := by rw [h]
    _ = b := Nat.zero_xor b

/-- A wrapping left xor-shift never maps a nonzero 64-bit state to zero:
the 2-adic valuation of the two xor operands differs. -/
theorem xorshift_left_ne_zero (k s : Nat) (hk : 0 < k) (hs : s ≠ 0)
    (hlt : s < 2 ^ 64) : s ^^^ ((s <<< k) % 2 ^ 64) ≠ 0 := by
  intro h
  have hEq : s = (s <<< k) % 2 ^ 64 := nat_eq_of_xor_eq_zero h
  haveI : Fact (Nat.Prime 2) := ⟨Nat.prime_two⟩
  set v := padicValNat 2 s with hv
  have h1 : 2 ^ v ∣ s := pow_padicValNat_dvd
  have h2 : ¬ 2 ^ (v + 1) ∣ s := pow_succ_padicValNat_not_dvd hs
  have hvlt : v < 64 := by
    by_contra hc
    have h3 : 2 ^ 64 ≤ 2 ^ v := Nat.pow_le_pow_right (by norm_num) (by omega)
    have h4 : 2 ^ v ≤ s := Nat.le_of_dvd (Nat.pos_of_ne_zero hs) h1
    omega
  have hd1 : 2 ^ (v + 1) ∣ s <<< k := by
    obtain ⟨m, hm⟩ := h1
    rw [Nat.shiftLeft_eq, hm]
    refine ⟨2 ^ (k - 1) * m, ?_⟩
    have hkk : v + k = (v + 1) + (k - 1) := by omega
    calc 2 ^ v * m * 2 ^ k
        = 2 ^ (v + k) * m := by rw [Nat.pow_add]; ring
      _ = 2 ^ (v + 1) * (2 ^ (k - 1) * m) := by
          rw [hkk, Nat.pow_add]; ring
  have hd2 : 2 ^ (v + 1) ∣ (s <<< k) % 2 ^ 64 :=
    (Nat.dvd_mod_iff (Nat.pow_dvd_pow 2 (by omega))).mpr hd1
  rw [← hEq] at hd2
  exact h2 hd2

/-- A right xor-shift never maps a nonzero state to zero: the value would
have to equal its own quotient by a power of two. -/
theorem xorshift_right_ne_zero (k s : Nat) (hk : 0 < k) (hs : s ≠ 0) :
    s ^^^ (s >>> k) ≠ 0 := by
  intro h
  have hEq : s = s >>> k := nat_eq_of_xor_eq_zero h
  rw [Nat.shiftRight_eq_div_pow] at hEq
  have hdiv : s / 2 ^ k < s := Nat.div_lt_self (Nat.pos_of_ne_zero hs)
    (by
      have h2 : 2 ^ 1 ≤ 2 ^ k := Nat.pow_le_pow_right (by norm_num) hk
      omega)
  omega

/-- One xorshift64 update of a nonzero 64-bit state is nonzero and
64-bit. -/
theorem xorshift64_props (s : Nat) (hs : s ≠ 0) (hlt : s < 2 ^ 64) :
    xorshift64 s ≠ 0 ∧ xorshift64 s < 2 ^ 64 := by
  simp only [xorshift64]
  have h1ne : s ^^^ ((s <<< 13) % 2 ^ 64) ≠ 0 :=
    xorshift_left_ne_zero 13 s (by norm_num) hs hlt
  have h1lt : s ^^^ ((s <<< 13) % 2 ^ 64) < 2 ^ 64 :=
    Nat.xor_lt_two_pow hlt (Nat.mod_lt _ (by norm_num))
  set s1 := s ^^^ ((s <<< 13) % 2 ^ 64) with hs1
  have h2ne : s1 ^^^ (s1 >>> 7) ≠ 0 := xorshift_right_ne_zero 7 s1 (by norm_num) h1ne
  have h2lt : s1 ^^^ (s1 >>> 7) < 2 ^ 64 := Nat.xor_lt_two_pow h1lt (by
    rw [Nat.shiftRight_eq_div_pow]
    exact lt_of_le_of_lt (Nat.div_le_self _ _) h1lt)
  set s2 := s1 ^^^ (s1 >>> 7) with hs2
  have h3ne : s2 ^^^ ((s2 <<< 17) % 2 ^ 64) ≠ 0 :=
    xorshift_left_ne_zero 17 s2 (by norm_num) h2ne h2lt
  have h3lt : s2 ^^^ ((s2 <<< 17) % 2 ^ 64) < 2 ^ 64 :=
    Nat.xor_lt_two_pow h2lt (Nat.mod_lt _ (by norm_num))
  exact ⟨h3ne, h3lt⟩

/-- The generator state after n calls to next_u64 from a given starting
state. -/
def rngIter (s : Nat) : Nat → Nat
  | 0 => s
  | n + 1 => xorshift64 (rngIter s n)

theorem rngIter_props (s : Nat) (hs : s ≠ 0) (hlt : s < 2 ^ 64) (n : Nat) :
    rngIter s n ≠ 0 ∧ rngIter s n < 2 ^ 64 := by
  induction n with
  | zero => exact ⟨hs, hlt⟩
  | succ n ih => exact xorshift64_props (rngIter s n) ih.1 ih.2

/-- The value next_u64 produces is always below 2 ^ 64. -/
theorem xorshift64_lt (s : Nat) (hlt : s < 2 ^ 64) : xorshift64 s < 2 ^ 64 := by
  simp only [xorshift64]
  have h1lt : s ^^^ ((s <<< 13) % 2 ^ 64) < 2 ^ 64 :=
    Nat.xor_lt_two_pow hlt (Nat.mod_lt _ (by norm_num))
  set s1 := s ^^^ ((s <<< 13) % 2 ^ 64) with hs1
  have h2lt : s1 ^^^ (s1 >>> 7) < 2 ^ 64 := Nat.xor_lt_two_pow h1lt (by
    rw [Nat.shiftRight_eq_div_pow]
    exact lt_of_le_of_lt (Nat.div_le_self _ _) h1lt)
  set s2 := s1 ^^^ (s1 >>> 7) with hs2
  exact Nat.xor_lt_two_pow h2lt (Nat.mod_lt _ (by norm_num))

/-! Claims. -/

/-- C3: two runs of new_random(w, h, seed) followed by simulate(params, n)
with the same (w, h, seed, params, n) produce exactly equal fields, cell
for cell.  The embedded pipeline is a pure function of these five inputs:
the generator state is threaded explicitly and there is no other state,
so the two runs coincide definitionally. -/
theorem claim_C3_determinism (w h seed n : Nat) (p : GrayScottParams) (g1 g2 : Grid)
    (h1 : g1 = (Grid.new_random w h seed).simulate p n)
    (h2 : g2 = (Grid.new_random w h seed).simulate p n) :
    g1.width = g2.width ∧ g1.height = g2.height ∧ g1.cells = g2.cells := by
  subst h1
  subst h2
  exact ⟨rfl, rfl, rfl⟩

theorem claim_C3_witness :
    ((Grid.new_random 12 12 42).simulate Preset.spots.params 2).width
      = ((Grid.new_random 12 12 42).simulate Preset.spots.params 2).width ∧
    ((Grid.new_random 12 12 42).simulate Preset.spots.params 2).height
      = ((Grid.new_random 12 12 42).simulate Preset.spots.params 2).height ∧
    ((Grid.new_random 12 12 42).simulate Preset.spots.params 2).cells
      = ((Grid.new_random 12 12 42).simulate Preset.spots.params 2).cells :=
  claim_C3_determinism 12 12 42 2 Preset.spots.params _ _ rfl rfl

/-- C4 (amended): constructing a grid with width = 0 or height = 0 does
not fail: Grid::new returns normally and yields a structurally valid grid
with width * height = 0 cells.  The seed loop is empty in this case, so no
out-of-bounds access occurs and no invalid-dimensions condition exists in
the constructor. -/
theorem claim_C4_zero_dims (w h : Nat) (hzero : w = 0 ∨ h = 0) :
    (Grid.new w h).width = w ∧ (Grid.new w h).height = h ∧
    (Grid.new w h).cells.length = 0 ∧ (Grid.new w h).cells = [] := by
  have hlen : (Grid.new w h).cells.length = 0 := by
    rw [Grid.new_length]
    rcases hzero with rfl | rfl <;> simp
  exact ⟨rfl, rfl, hlen, List.length_eq_zero.mp hlen⟩

theorem claim_C4_witness :
    (Grid.new 0 5).width = 0 ∧ (Grid.new 0 5).height = 5 ∧
    (Grid.new 0 5).cells.length = 0 ∧ (Grid.new 0 5).cells = [] :=
  claim_C4_zero_dims 0 5 (Or.inl rfl)

/-- C4 counterexample: Grid::new(0, 5) silently returns an empty but
structurally valid grid; construction with a zero dimension does not fail
with an invalid-dimensions condition. -/
theorem claim_C4_counterexample :
    (Grid.new 0 5).cells = [] ∧ (Grid.new 0 5).width = 0 ∧
    (Grid.new 0 5).height = 5 :=
  ⟨rfl, rfl, rfl⟩

/-- C8 (amended): next_f64 returns the raw next_u64 value divided by
u64::MAX, and the result lies in the closed interval [0, 1] — not the
half-open [0, 1): when the raw value is u64::MAX the result is exactly 1.
Only these one-sided facts are stated, since they hold both for the exact
rational quotient of the model and for the rounded f64 division of the
source; the source's rounding reaches 1.0 on further raw values as well. -/
theorem claim_C8_next_f64_range (r : SimpleRng) (hr : r.state < 2 ^ 64) :
    r.next_f64.1 = ((r.next_u64.1 : ℚ) / ((2 ^ 64 - 1 : Nat) : ℚ)) ∧
    0 ≤ r.next_f64.1 ∧ r.next_f64.1 ≤ 1 ∧
    (r.next_u64.1 = 2 ^ 64 - 1 → r.next_f64.1 = 1) := by
  have hf : r.next_f64.1 = ((r.next_u64.1 : ℚ) / ((2 ^ 64 - 1 : Nat) : ℚ)) := rfl
  have hvlt : r.next_u64.1 < 2 ^ 64 := xorshift64_lt _ hr
  have hle : r.next_u64.1 ≤ 2 ^ 64 - 1 := by omega
  have hden0 : (0 : ℚ) < ((2 ^ 64 - 1 : Nat) : ℚ) := by
    have h0 : (0 : ℕ) < 2 ^ 64 - 1 := by norm_num
    exact_mod_cast h0
  refine ⟨hf, ?_, ?_, ?_⟩
  · rw [hf]
    exact div_nonneg (Nat.cast_nonneg _) (le_of_lt hden0)
  · rw [hf, div_le_one hden0]
    exact_mod_cast hle
  · intro hmax
    rw [hf, hmax]
    exact div_self (ne_of_gt hden0)

theorem claim_C8_witness :
    (SimpleRng.new 1).next_f64.1
      = (((SimpleRng.new 1).next_u64.1 : ℚ) / ((2 ^ 64 - 1 : Nat) : ℚ)) ∧
    0 ≤ (SimpleRng.new 1).next_f64.1 ∧ (SimpleRng.new 1).next_f64.1 ≤ 1 ∧
    ((SimpleRng.new 1).next_u64.1 = 2 ^ 64 - 1 → (SimpleRng.new 1).next_f64.1 = 1) :=
  claim_C8_next_f64_range (SimpleRng.new 1) (by norm_num [SimpleRng.new])

/-- C8 counterexample: starting from seed 7650297886450228676 the first
next_u64 value is u64::MAX, so next_f64 returns exactly 1 — the result is
not strictly below 1, refuting the half-open interval [0, 1). -/
theorem claim_C8_counterexample :
    (SimpleRng.new 7650297886450228676).next_f64.1 = 1 ∧
    ¬ (SimpleRng.new 7650297886450228676).next_f64.1 < 1 := by
  have hv : (SimpleRng.new 7650297886450228676).next_u64.1 = 2 ^ 64 - 1 := by decide
  have h1 : (SimpleRng.new 7650297886450228676).next_f64.1
      = (((2 ^ 64 - 1 : Nat) : ℚ)) / ((2 ^ 64 - 1 : Nat) : ℚ) := by
    rw [← hv]
    rfl
  have h2 : (SimpleRng.new 7650297886450228676).next_f64.1 = 1 := by
    rw [h1]
    refine div_self ?_
    have h0 : (0 : ℕ) < 2 ^ 64 - 1 := by norm_num
    have h0' : (0 : ℚ) < ((2 ^ 64 - 1 : Nat) : ℚ) := by exact_mod_cast h0
    exact ne_of_gt h0'
  exact ⟨h2, by rw [h2]; exact lt_irrefl 1⟩

/-- C9: SimpleRng::new substitutes 1 for a zero seed, and the internal
state is nonzero after construction and stays nonzero after every number
of next_u64 calls — the state never reaches the fixed point 0. -/
theorem claim_C9_state_nonzero (seed n : Nat) (hs : seed < 2 ^ 64) :
    (SimpleRng.new 0).state = 1 ∧
    (SimpleRng.new seed).state ≠ 0 ∧
    rngIter (SimpleRng.new seed).state n ≠ 0 := by
  have hstate : (SimpleRng.new seed).state = max seed 1 := rfl
  have h1 : 1 ≤ max seed 1 := le_max_right seed 1
  have hne : (SimpleRng.new seed).state ≠ 0 := by
    rw [hstate]
    exact Nat.pos_iff_ne_zero.mp (lt_of_lt_of_le one_pos h1)
  have hlt : (SimpleRng.new seed).state < 2 ^ 64 := by
    rw [hstate]
    rcases Nat.le_total seed 1 with h | h
    · rw [Nat.max_eq_right h]
      norm_num
    · rw [Nat.max_eq_left h]
      exact hs
  exact ⟨rfl, hne, (rngIter_props _ hne hlt n).1⟩

theorem claim_C9_witness :
    (SimpleRng.new 0).state = 1 ∧
    (SimpleRng.new 0).state ≠ 0 ∧
    rngIter (SimpleRng.new 0).state 3 ≠ 0 :=
  claim_C9_state_nonzero 0 3 (by norm_num)

/-- C1: Grid::step computes every cell of the new field exclusively from
the field as it stood before the step — the value stored at in-range
(x, y) is the Gray-Scott update stepCell evaluated on the unmodified
prior grid — and the whole resulting cell list equals, cell for cell,
that of the simultaneous reference update stepSimultaneousSpec. -/
theorem claim_C1_double_buffer (g : Grid) (p : GrayScottParams) (x y : Nat) (d : Cell)
    (hw : 0 < g.width) (hh : 0 < g.height)
    (hlen : g.cells.length = g.width * g.height)
    (hx : x < g.width) (hy : y < g.height) :
    (g.step p).cells = (g.stepSimultaneousSpec p).cells ∧
    (g.step p).cells.getD (y * g.width + x) d = g.stepCell p x y := by
  constructor
  · apply List.ext_getElem
    · rw [Grid.step_length, hlen]
      simp [Grid.stepSimultaneousSpec]
    · intro n h1 h2
      have hn : n < g.width * g.height := by
        rw [Grid.step_length, hlen] at h1
        exact h1
      have hxn : n % g.width < g.width := Nat.mod_lt _ hw
      have hyn : n / g.width < g.height := by
        rw [Nat.div_lt_iff_lt_mul hw]
        rw [Nat.mul_comm g.width g.height] at hn
        exact hn
      have hdec : (n / g.width) * g.width + n % g.width = n := by
        rw [Nat.mul_comm]
        exact Nat.div_add_mod n g.width
      have hL : (g.step p).cells[n] = g.stepCell p (n % g.width) (n / g.width) := by
        rw [← List.getD_eq_getElem _ d h1]
        conv_lhs => rw [← hdec]
        exact Grid.step_getD g p _ _ d hxn hyn (le_of_eq hlen.symm)
      have hR : (g.stepSimultaneousSpec p).cells[n]
          = g.stepCell p (n % g.width) (n / g.width) := by
        simp only [Grid.stepSimultaneousSpec] at h2 ⊢
        rw [List.getElem_map, List.getElem_range]
      rw [hL, hR]
  · exact Grid.step_getD g p x y d hx hy (le_of_eq hlen.symm)

theorem claim_C1_witness :
    ((Grid.new 3 3).step Preset.spots.params).cells
      = ((Grid.new 3 3).stepSimultaneousSpec Preset.spots.params).cells ∧
    ((Grid.new 3 3).step Preset.spots.params).cells.getD
        (1 * (Grid.new 3 3).width + 1) defaultCell
      = (Grid.new 3 3).stepCell Preset.spots.params 1 1 :=
  claim_C1_double_buffer (Grid.new 3 3) Preset.spots.params 1 1 defaultCell
    (by decide) (by decide) (by decide) (by decide) (by decide)

/-- A cell is within the legal concentration range [0, 1] × [0, 1]. -/
def cellInRange (c : Cell) : Prop := 0 ≤ c.a ∧ c.a ≤ 1 ∧ 0 ≤ c.b ∧ c.b ≤ 1

instance (c : Cell) : Decidable (cellInRange c) := by
  unfold cellInRange
  infer_instance

theorem stepCell_in_range (g : Grid) (p : GrayScottParams) (x y : Nat) :
    cellInRange (g.stepCell p x y) := by
  simp only [Grid.stepCell, cellInRange]
  exact ⟨clamp_nonneg _, clamp_le_one _, clamp_nonneg _, clamp_le_one _⟩

theorem step_preserves_range (g : Grid) (p : GrayScottParams)
    (hg : ∀ c ∈ g.cells, cellInRange c) :
    ∀ c ∈ (g.step p).cells, cellInRange c := by
  intro c hc
  rw [Grid.step_cells_eq] at hc
  rcases blockSet_mem _ _ _ _ _ _ _ c hc with h1 | h1
  · exact hg c h1
  · obtain ⟨dx, dy, rfl⟩ := h1
    exact stepCell_in_range g p dx dy

/-- C2: for every grid whose cells respect the data-model invariant
(concentrations in [0, 1]), valid Gray-Scott parameters and any step
count n ≥ 0, every cell's activator and inhibitor lie within [0, 1]
after simulate: every written cell is clamped and untouched cells keep
their in-range values. -/
theorem claim_C2_bounds (g : Grid) (p : GrayScottParams) (n : Nat)
    (hw : 0 < g.width) (hh : 0 < g.height)
    (hp : 0 < p.da ∧ 0 < p.db ∧ 0 < p.dt ∧ 0 ≤ p.feed ∧ 0 ≤ p.kill)
    (hg : ∀ c ∈ g.cells, cellInRange c) :
    ∀ c ∈ (g.simulate p n).cells, cellInRange c := by
  induction n with
  | zero => exact hg
  | succ n ih =>
    rw [Grid.simulate_succ]
    exact step_preserves_range _ p ih

theorem claim_C2_witness :
    cellInRange (((Grid.new 3 3).simulate Preset.spots.params 0).cells.getD 0
      defaultCell) :=
  claim_C2_bounds (Grid.new 3 3) Preset.spots.params 0 (by decide) (by decide)
    (by norm_num [Preset.params]) (by decide) _ (by decide)

/-- C10: a grid whose cells are all exactly the steady cell (a = 1, b = 0)
is a fixed point of step, and hence of simulate for every n and every
parameter set: the Laplacians and the reaction term vanish exactly, so no
cell changes.  A grid constructed without a center seed (min(w, h)/10 = 0,
witnessed below by Grid::new(5, 5)) is such a grid and never evolves. -/
theorem claim_C10_steady_fixed_point (g : Grid) (p : GrayScottParams) (n : Nat)
    (hw : 0 < g.width) (hh : 0 < g.height)
    (hc : g.cells = List.replicate (g.width * g.height) { a := 1, b := 0 }) :
    g.step p = g ∧ g.simulate p n = g := by
  have hstep := Grid.step_uniform g p hw hh hc
  refine ⟨hstep, ?_⟩
  induction n with
  | zero => rfl
  | succ n ih => rw [Grid.simulate_succ, ih, hstep]

theorem claim_C10_witness :
    (Grid.new 5 5).step Preset.spots.params = Grid.new 5 5 ∧
    (Grid.new 5 5).simulate Preset.spots.params 7 = Grid.new 5 5 :=
  claim_C10_steady_fixed_point (Grid.new 5 5) Preset.spots.params 7
    (by decide) (by decide) (by decide)

/-- Whenever the seed square is nonempty (min(w, h) ≥ 10), its top-left
cell is in range and holds the seeded value (a = 0, b = 1). -/
theorem Grid.new_seed_cell (w h : Nat) (hmin : 10 ≤ min w h) :
    seedX0 w h < w ∧ seedY0 w h < h ∧
    seedY0 w h * w + seedX0 w h < w * h ∧
    (Grid.new w h).cells.getD (seedY0 w h * w + seedX0 w h) defaultCell
      = { a := 0, b := 1 } := by
  have hss : 1 ≤ seedSize w h := by
    unfold seedSize
    omega
  have hbx := (seed_bounds w h).1
  have hby := (seed_bounds w h).2
  have hx0 : seedX0 w h < w := by omega
  have hy0 : seedY0 w h < h := by omega
  have hj0 : seedY0 w h * w + seedX0 w h < w * h := index_lt hx0 hy0
  have hmem : inSeedBlock w h (seedY0 w h * w + seedX0 w h) :=
    ⟨0, hss, 0, hss, by simp⟩
  refine ⟨hx0, hy0, hj0, ?_⟩
  rw [Grid.new_getD w h _ hj0, if_pos hmem]

/-- C5 (amended): Grid::new(w, h) with positive dimensions sets every
in-range cell to the steady state (1, 0) and then overwrites exactly the
centered square block of side min(w, h) / 10 — integer division, hence no
seed at all when min(w, h) < 10 — with (0, 1); whenever min(w, h) ≥ 10
the constructed grid does contain a cell whose inhibitor equals 1. -/
theorem claim_C5_seeding (w h : Nat) (hw : 0 < w) (hh : 0 < h) (j : Nat)
    (hj : j < w * h) :
    (Grid.new w h).cells.length = w * h ∧
    (Grid.new w h).cells.getD j defaultCell
      = (if inSeedBlock w h j then { a := 0, b := 1 } else { a := 1, b := 0 }) ∧
    (10 ≤ min w h →
      ((Grid.new w h).cells.getD (seedY0 w h * w + seedX0 w h) defaultCell).b = 1) := by
  refine ⟨Grid.new_length w h, Grid.new_getD w h j hj, fun hmin => ?_⟩
  rw [(Grid.new_seed_cell w h hmin).2.2.2]

theorem claim_C5_witness :
    (Grid.new 50 50).cells.length = 50 * 50 ∧
    (Grid.new 50 50).cells.getD 0 defaultCell
      = (if inSeedBlock 50 50 0 then { a := 0, b := 1 } else { a := 1, b := 0 }) ∧
    (10 ≤ min 50 50 →
      ((Grid.new 50 50).cells.getD (seedY0 50 50 * 50 + seedX0 50 50) defaultCell).b
        = 1) :=
  claim_C5_seeding 50 50 (by decide) (by decide) 0 (by decide)

/-- C5 counterexample: Grid::new(5, 5) has positive dimensions, but
min(5, 5) / 10 = 0, so the seed loop writes nothing: every cell stays at
the steady state (1, 0) and no cell has inhibitor equal to 1 — the claim
that the seeded square always has side at least 1 fails. -/
theorem claim_C5_counterexample :
    (Grid.new 5 5).cells = List.replicate 25 { a := 1, b := 0 } ∧
    ¬ ∃ c ∈ (Grid.new 5 5).cells, c.b = 1 := by
  decide

/-- C6: for positive dimensions Grid::get resolves any integer
coordinates, including negative and out-of-range ones, through the
toroidal wrap ((coord % size) + size) % size — equal to the canonical
nonnegative residue on each axis — and is periodic with period width
horizontally and height vertically; on a 10×10 grid this yields
get(-1, 0) = get(9, 0) and get(0, -1) = get(0, 9). -/
theorem claim_C6_toroidal_wrap (g : Grid) (x y : ℤ)
    (hw : 0 < g.width) (hh : 0 < g.height) :
    g.get x y = g.cells.getD
      ((y % (g.height : ℤ)).toNat * g.width + (x % (g.width : ℤ)).toNat)
      defaultCell ∧
    g.get (x + g.width) y = g.get x y ∧
    g.get x (y + g.height) = g.get x y := by
  have hx : ((x + (g.width : ℤ)) % (g.width : ℤ)) = x % (g.width : ℤ) := by
    conv_lhs => rw [show x + (g.width : ℤ) = x + (g.width : ℤ) * 1 by ring]
    exact Int.add_mul_emod_self_left _ _ _
  have hy : ((y + (g.height : ℤ)) % (g.height : ℤ)) = y % (g.height : ℤ) := by
    conv_lhs => rw [show y + (g.height : ℤ) = y + (g.height : ℤ) * 1 by ring]
    exact Int.add_mul_emod_self_left _ _ _
  refine ⟨Grid.get_eq g x y hw hh, ?_, ?_⟩
  · rw [Grid.get_eq g _ _ hw hh, Grid.get_eq g x y hw hh, hx]
  · rw [Grid.get_eq g _ _ hw hh, Grid.get_eq g x y hw hh, hy]

theorem claim_C6_witness :
    (Grid.new 10 10).get (-1) 0 = (Grid.new 10 10).cells.getD
      (((0 : ℤ) % ((Grid.new 10 10).height : ℤ)).toNat * (Grid.new 10 10).width
        + ((-1 : ℤ) % ((Grid.new 10 10).width : ℤ)).toNat) defaultCell ∧
    (Grid.new 10 10).get (-1 + (Grid.new 10 10).width) 0
      = (Grid.new 10 10).get (-1) 0 ∧
    (Grid.new 10 10).get (-1) (0 + (Grid.new 10 10).height)
      = (Grid.new 10 10).get (-1) 0 :=
  claim_C6_toroidal_wrap (Grid.new 10 10) (-1) 0 (by decide) (by decide)

/-- On a seeded cell (a = 0, b = 1) whose neighbors all have inhibitor at
most 1, one Gray-Scott update drops the inhibitor to at most 1 - 9/100,
provided dt (kill + feed) ≥ 9/100 — true of every preset. -/
theorem stepCell_seed_drop (g : Grid) (p : GrayScottParams) (x y : Nat)
    (hcell : g.cells.getD (y * g.width + x) defaultCell = { a := 0, b := 1 })
    (hcenter : g.get (x : ℤ) (y : ℤ) = { a := 0, b := 1 })
    (hnb : ∀ u v : ℤ, (g.get u v).b ≤ 1)
    (hdt : 0 < p.dt) (hdb : 0 < p.db)
    (hkf : 9 / 100 ≤ p.dt * (p.kill + p.feed)) :
    (g.stepCell p x y).b ≤ 1 - 9 / 100 := by
  simp only [Grid.stepCell, Grid.laplacian, hcell, hcenter]
  apply clamp_le_of_le (by norm_num) (by norm_num)
  have h1 := hnb ((x : ℤ) - 1) (y : ℤ)
  have h2 := hnb ((x : ℤ) + 1) (y : ℤ)
  have h3 := hnb (x : ℤ) ((y : ℤ) - 1)
  have h4 := hnb (x : ℤ) ((y : ℤ) + 1)
  have hL : (g.get ((x : ℤ) - 1) (y : ℤ)).b + (g.get ((x : ℤ) + 1) (y : ℤ)).b
      + (g.get (x : ℤ) ((y : ℤ) - 1)).b + (g.get (x : ℤ) ((y : ℤ) + 1)).b
      - 4 * ({ a := 0, b := 1 } : Cell).b ≤ 0 := by
    simp only []
    linarith
  nlinarith [mul_nonneg (le_of_lt hdt) (le_of_lt hdb)]

/-- C7: starting from the field produced by Grid::new — whenever the
construction actually seeds, i.e. min(w, h) ≥ 10 — a single step with any
preset's parameters changes the inhibitor of some cell by more than the
epsilon 1/100: the top-left seed cell drops by at least dt (kill+feed). -/
theorem claim_C7_change_after_step (w h : Nat) (pr : Preset) (hmin : 10 ≤ min w h) :
    ∃ j < w * h, 1 / 100 <
      |(((Grid.new w h).step pr.params).cells.getD j defaultCell).b
        - ((Grid.new w h).cells.getD j defaultCell).b| := by
  have hwl : min w h ≤ w := min_le_left w h
  have hhl : min w h ≤ h := min_le_right w h
  have hw : 0 < w := by omega
  have hh : 0 < h := by omega
  obtain ⟨hx0, hy0, hj0, hold⟩ := Grid.new_seed_cell w h hmin
  have hnew : ((Grid.new w h).step pr.params).cells.getD
      (seedY0 w h * w + seedX0 w h) defaultCell
      = (Grid.new w h).stepCell pr.params (seedX0 w h) (seedY0 w h) :=
    Grid.step_getD (Grid.new w h) pr.params _ _ defaultCell hx0 hy0
      (by rw [Grid.new_length]; exact le_of_eq rfl)
  have hcenter : (Grid.new w h).get ((seedX0 w h : ℤ)) ((seedY0 w h : ℤ))
      = { a := 0, b := 1 } := by
    rw [Grid.get_ofNat _ _ _ hx0 hy0]
    exact hold
  have hnb : ∀ u v : ℤ, ((Grid.new w h).get u v).b ≤ 1 :=
    fun u v => (Grid.new_get_bounds w h u v).2.2.2
  have hps : 0 < pr.params.dt ∧ 0 < pr.params.db ∧
      9 / 100 ≤ pr.params.dt * (pr.params.kill + pr.params.feed) := by
    cases pr <;> norm_num [Preset.params]
  have hdrop : ((Grid.new w h).stepCell pr.params (seedX0 w h) (seedY0 w h)).b
      ≤ 1 - 9 / 100 :=
    stepCell_seed_drop (Grid.new w h) pr.params _ _ hold hcenter hnb
      hps.1 hps.2.1 hps.2.2
  have hnn : 0 ≤ ((Grid.new w h).stepCell pr.params (seedX0 w h) (seedY0 w h)).b := by
    simp only [Grid.stepCell]
    exact clamp_nonneg _
  refine ⟨seedY0 w h * w + seedX0 w h, hj0, ?_⟩
  rw [hnew, hold]
  have hle : ((Grid.new w h).stepCell pr.params (seedX0 w h) (seedY0 w h)).b
      - ({ a := 0, b := 1 } : Cell).b ≤ 0 := by
    simp only []
    linarith
  rw [abs_of_nonpos hle]
  simp only []
  linarith

theorem claim_C7_witness :
    ∃ j < 20 * 20, 1 / 100 <
      |(((Grid.new 20 20).step Preset.spots.params).cells.getD j defaultCell).b
        - ((Grid.new 20 20).cells.getD j defaultCell).b| :=
  claim_C7_change_after_step 20 20 Preset.spots (by decide)

end Mathatura
